import Mathlib

/-!
Shallow embedding of `sphinxcontrib/plsqldomain.py` (the PL/SQL Sphinx
domain).  Strings are modelled as `List Char`; the embedding covers the
ASCII fragment of the Python regular-expression character classes and
assumes input strings contain no newline character (the Python anchors
`$` and `.` treat a trailing newline specially; no signature in this
domain contains one).
-/

namespace PlsqlDomain

abbrev Str := List Char

/-- ASCII fragment of the Python regex class `\w`: letters, digits, `_`. -/
def isWordChar (c : Char) : Bool := c.isAlphanum || c = '_'

/-- The regex class `[\w.]` used by the package-prefix group. -/
def isWordDot (c : Char) : Bool := isWordChar c || c = '.'

/-- ASCII fragment of the Python regex class `\s` (also used for
`str.strip()` / `str.isspace()`). -/
def isSpaceChar (c : Char) : Bool :=
  c = ' ' || c = '\t' || c = '\n' || c = '\r' || c = '\x0b' || c = '\x0c'

/-- Python `str.strip()`: remove leading and trailing whitespace. -/
def strip (s : Str) : Str :=
  ((s.dropWhile isSpaceChar).reverse.dropWhile isSpaceChar).reverse

/-- The four capture groups of `plsql_sig_re`:
`^([\w.]*\.)?(\$?\w+)\s*(?:(?:\((.*)\))?(?:\s*return\s*(.*))?)?$`
(VERBOSE, IGNORECASE). `pfx` is group 1 (package-name prefix, ends with
a dot when present), `name` group 2, `arglist` group 3, `retann` group 4. -/
structure SigGroups where
  pfx : Option Str
  name : Str
  arglist : Option Str
  retann : Option Str
deriving DecidableEq

def toLowerList (s : Str) : Str := s.map Char.toLower

/-- Match a case-insensitive literal at the front of `s`, returning the
remainder (used for the `return` keyword under `re.IGNORECASE`). -/
def dropLiteralCI (lit : Str) (s : Str) : Option Str :=
  if lit.length ≤ s.length ∧ toLowerList (s.take lit.length) = lit then
    some (s.drop lit.length)
  else none

/-- The sub-pattern `\s*return\s*(.*)` applied at `u` and required to
reach the end of the string: both `\s*` are greedy, `(.*)` captures the
rest (group 4). Returns the capture on success. -/
def tryReturn (u : Str) : Option Str :=
  match dropLiteralCI ("return".toList) (u.dropWhile isSpaceChar) with
  | some u2 => some (u2.dropWhile isSpaceChar)
  | none => none

/-- The tail `(?:\s*return\s*(.*))?$` after a parenthesised argument
list: the optional group is tried first (greedy); otherwise the string
must be exhausted. Returns group 4 (`none` when the group is skipped). -/
def matchRetOpt (u : Str) : Option (Option Str) :=
  match tryReturn u with
  | some r => some (some r)
  | none => if u = [] then some (none) else none

/-- The sub-pattern `\((.*)\)` followed by `(?:\s*return\s*(.*))?$`.
The greedy `(.*)` is realised by trying the closing-parenthesis
positions from rightmost to leftmost; the first position whose tail
also matches wins, exactly as the backtracking engine does. -/
def tryParens (u : Str) : Option (Str × Option Str) :=
  match u with
  | '(' :: v =>
    (((v.enum.filter (fun p => p.2 = ')')).map Prod.fst).reverse).findSome?
      (fun i => (matchRetOpt (v.drop (i + 1))).map (fun r => (v.take i, r)))
  | _ => none

/-- The pattern tail `\s*(?:(?:\((.*)\))?(?:\s*return\s*(.*))?)?$`
after the method name: leading `\s*` is greedy (nothing that follows
consumes whitespace before producing a capture), then the argument
group is tried, then the return group, then the empty alternative.
Returns `(group 3, group 4)`. -/
def matchRest (u0 : Str) : Option (Option Str × Option Str) :=
  let u := u0.dropWhile isSpaceChar
  match tryParens u with
  | some ar => some (some ar.1, ar.2)
  | none =>
    match tryReturn u with
    | some r => some (none, some r)
    | none => if u = [] then some (none, none) else none

/-- Candidate matches for the name group `(\$?\w+)` at the front of
`t`, paired with the remaining input, in the backtracking engine's
greedy order (longest name first). -/
def nameCands (t : Str) : List (Str × Str) :=
  match t with
  | [] => []
  | c :: rest =>
    if c = '$' then
      ((List.range (rest.takeWhile isWordChar).length).reverse.map
        (fun j => ('$' :: rest.take (j + 1), rest.drop (j + 1))))
    else if isWordChar c then
      ((List.range ((rest.takeWhile isWordChar).length + 1)).reverse.map
        (fun j => (c :: rest.take j, rest.drop j)))
    else []

/-- Candidate lengths for the optional prefix group `([\w.]*\.)?`: every
prefix of the leading `[\w.]` run that ends with a dot, longest first
(the greedy order), then `none` for the skipped group. -/
def pfxCands (s : Str) : List (Option Nat) :=
  ((((s.takeWhile isWordDot).enum.filter (fun p => p.2 = '.')).map
      (fun p => some (p.1 + 1))).reverse) ++ [none]

/-- `plsql_sig_re.match(s)`: the first (in backtracking order) full
decomposition of `s` into the four groups, or `none` when the string
does not match the grammar. -/
def matchSig (s : Str) : Option SigGroups :=
  (pfxCands s).findSome? (fun pc =>
    let t := s.drop (pc.getD 0)
    (nameCands t).findSome? (fun nr =>
      (matchRest nr.2).map (fun ar =>
        ⟨pc.map (fun k => s.take k), nr.1, ar.1, ar.2⟩)))

/-! ## handle_signature (PlSqlObject.handle_signature, lines 115–157) -/

/-- The two exceptions `handle_signature` can raise: `ValueError` when
the regex does not match (line 118), `KeyError` when
`temp_data['plsql:current_package']` is read while absent (line 126). -/
inductive SigError where
  | valueError
  | keyError
deriving DecidableEq

/-- The slice of `env.temp_data` the directive reads: the truthiness of
`'plsql:in_package'` and the optional `'plsql:current_package'` entry
(set by `PlSqlPackage.before_content`, lines 189–195). -/
structure TempData where
  inPackage : Bool
  currentPackage : Option Str
deriving DecidableEq

/-- Python `token` discard test of lines 148–149:
`not token or token == ',' or token.isspace()` (the `','` case is
unreachable after `split(',')` but kept for fidelity; `isspace` is
false on the empty string, which the first disjunct already catches). -/
def tokenDiscard (t : Str) : Bool :=
  t.isEmpty || t = [','] || (!t.isEmpty && t.all isSpaceChar)

/-- Lines 147–152: `arglist.split(',')`, discarding empty /
whitespace-only tokens, stripping the rest, in source order. -/
def splitParams (a : Str) : List Str :=
  ((a.splitOn ',').filter (fun t => !tokenDiscard t)).map strip

/-- The observable outcome of `handle_signature`: the returned
`fullname` plus the `desc_parameter` texts and the `desc_returns`
text appended to the signature node. -/
structure HSResult where
  fullname : Str
  sigParams : List Str
  retNode : Option Str
deriving DecidableEq

/-- Lines 143–155: the parameter-list and return nodes (both guarded
by Python truthiness, so an empty capture produces nothing). -/
def mkRes (fullname : Str) (g : SigGroups) : HSResult :=
  { fullname := fullname
    sigParams :=
      match g.arglist with
      | some a => if a.isEmpty then [] else splitParams a
      | none => []
    retNode :=
      match g.retann with
      | some r => if r.isEmpty then none else some r
      | none => none }

/-- `PlSqlObject.handle_signature` (lines 115–157): match the regex
(raise `ValueError` on failure), default a missing prefix to `''`,
override the prefix with `current_package + '.'` when inside a
package, and return `name_prefix + name` (`name` alone when the
prefix is empty). -/
def handleSignature (td : TempData) (sig : Str) : Except SigError HSResult :=
  match matchSig sig with
  | none => .error .valueError
  | some g =>
    let np0 := g.pfx.getD []
    if td.inPackage then
      match td.currentPackage with
      | none => .error .keyError
      | some p => .ok (mkRes ((p ++ ['.']) ++ g.name) g)
    else
      .ok (mkRes ((if np0.isEmpty then [] else np0) ++ g.name) g)

/-! ## Symbol index (`env.domaindata['plsql']['objects']`) -/

/-- One value of the `objects` dict: `(docname, objtype)` (line 174). -/
structure ObjEntry where
  docname : Str
  objtype : Str
deriving DecidableEq

/-- The `objects` dict, modelled as an insertion-ordered association
list the way a Python `dict` behaves (unique keys, update in place,
new keys appended). -/
abbrev Inv := List (Str × ObjEntry)

/-- Python `inv[name]` / `name in inv` (first — in practice only —
binding of the key). -/
def lookup : Inv → Str → Option ObjEntry
  | [], _ => none
  | (k, v) :: r, key => if k = key then some v else lookup r key

/-- Python `inv[name] = entry`: overwrite in place when the key is
present, append otherwise. -/
def dictInsert (key : Str) (v : ObjEntry) : Inv → Inv
  | [] => [(key, v)]
  | (k, w) :: r => if k = key then (k, v) :: r else (k, w) :: dictInsert key v r

/-- The Python-dict invariant: each key is bound at most once. -/
abbrev keysNodup (inv : Inv) : Prop := (inv.map Prod.fst).Nodup

/-- The duplicate-object warning of lines 170–173: it names the
duplicated object and the document holding the prior definition
(`inv[name][0]`, rendered through `env.doc2path`, which is injective
on docnames). -/
structure DupWarning where
  dupName : Str
  priorDoc : Str
deriving DecidableEq

/-- Lines 168–174, the symbol-index insertion step: warn when the name
is already present (recording the prior definition's document), then
overwrite `inv[name]` with the new `(docname, objtype)`. -/
def indexInsert (docname objtype name : Str) (inv : Inv)
    (ws : List DupWarning) : Inv × List DupWarning :=
  let ws2 :=
    match lookup inv name with
    | some e => ws ++ [⟨name, e.docname⟩]
    | none => ws
  (dictInsert name ⟨docname, objtype⟩ inv, ws2)

/-- `PlSqlDomain.clear_doc` (lines 290–293): delete every entry whose
stored docname equals the cleared document. -/
def clearDoc (docname : Str) (inv : Inv) : Inv :=
  inv.filter (fun p => !decide (p.2.docname = docname))

/-- The reference node produced by `make_refnode` on a hit: the target
document (`obj[0]`) and the target id / title (both the canonical
name). -/
structure RefNode where
  todocname : Str
  targetid : Str
deriving DecidableEq

/-- `PlSqlDomain.resolve_xref` (lines 295–301): exact dict lookup;
`None` (no link, no error) on a miss. -/
def resolveXref (inv : Inv) (target : Str) : Option RefNode :=
  match lookup inv target with
  | none => none
  | some e => some ⟨e.docname, target⟩

/-- `PlSqlXRefRole.process_link` (lines 248–249): title and target are
passed through unchanged, whatever the explicit-title flag. -/
def processLink (hasExplicitTitle : Bool) (title target : Str) : Str × Str :=
  (title, target)

/-! ## add_target_and_index (lines 162–178) -/

/-- The directive-level environment `add_target_and_index` reads:
`env.docname` and `self.objtype`. -/
structure DirectiveEnv where
  docname : Str
  objtype : Str
deriving DecidableEq

/-- The mutable state `add_target_and_index` touches:
`state.document.ids` (ids registered so far in the current document),
the `objects` dict, the reporter's warnings, and the index entries. -/
structure BuildState where
  documentIds : List Str
  inv : Inv
  warnings : List DupWarning
  indexEntries : List (Str × Str)
deriving DecidableEq

/-- `get_index_text` (lines 159–160): `'%s (PL/SQL %s)' % (name, objtype)`. -/
def indexText (objtype name : Str) : Str :=
  name ++ " (PL/SQL ".toList ++ objtype ++ ")".toList

/-- `PlSqlObject.add_target_and_index` (lines 162–178): when the name
is not yet an id of the current document, register it and run the
index insertion of lines 168–174; in every case append the index
entry (lines 176–178). -/
def addTargetAndIndex (env : DirectiveEnv) (name : Str)
    (st : BuildState) : BuildState :=
  if name ∈ st.documentIds then
    { st with indexEntries := st.indexEntries ++ [(indexText env.objtype name, name)] }
  else
    let s2 := indexInsert env.docname env.objtype name st.inv st.warnings
    { documentIds := st.documentIds ++ [name]
      inv := s2.1
      warnings := s2.2
      indexEntries := st.indexEntries ++ [(indexText env.objtype name, name)] }

/-- Clearing a document and re-running its insertions (the inv and
warning effect of `add_target_and_index` on a fresh document), in
index order. -/
def reinsertDoc (st : Inv × List DupWarning) (ps : Inv) :
    Inv × List DupWarning :=
  ps.foldl (fun s p => indexInsert p.2.docname p.2.objtype p.1 s.1 s.2) st

/-- The entries of the index owned by document `d`, in index order. -/
def ownedPairs (inv : Inv) (d : Str) : Inv :=
  inv.filter (fun p => decide (p.2.docname = d))

/-! ## Typed-field renderer (PlSqlTypedField.make_field, lines 53–93) -/

/-- The two node shapes the plain-text type annotation produces:
plain (non-linked) text and a cross-reference. -/
inductive RNode where
  | text (s : Str)
  | xref (role : Str) (target : Str)
deriving DecidableEq

/-- Lines 70–76 of `make_field`: split the plain-text annotation on
`' '`; a single component becomes one cross-reference, otherwise all
but the last component are joined back as plain text, a space
follows, and only the last component becomes a cross-reference. -/
def renderPlainType (role tn : Str) : List RNode :=
  let comps := tn.splitOn ' '
  if comps.length = 1 then [.xref role tn]
  else [.text (List.intercalate (" ".toList) comps.dropLast),
        .text (" ".toList),
        .xref role (comps.getLastD [])]

/-- Modelled from the spec: the spec's phrase "split on top-level
commas" (a comma nested inside inner parentheses does not separate
tokens), used only to compare against the code's splitting. The code
under `src/` contains no such depth-aware split. -/
def splitTopLevelAux : Str → Nat → Str → List Str
  | [], _, cur => [cur.reverse]
  | c :: rest, depth, cur =>
    if c = ',' ∧ depth = 0 then
      cur.reverse :: splitTopLevelAux rest 0 []
    else
      splitTopLevelAux rest
        (if c = '(' then depth + 1 else if c = ')' then depth - 1 else depth)
        (c :: cur)

/-- Modelled from the spec: split on top-level commas, then trim and
discard empty / whitespace-only tokens exactly as the code does. -/
def splitTopLevelSpec (a : Str) : List Str :=
  ((splitTopLevelAux a 0 []).filter (fun t => !tokenDiscard t)).map strip

/-! ## Dictionary lemmas -/

theorem lookup_dictInsert (k : Str) (v : ObjEntry) (l : Inv) (q : Str) :
    lookup (dictInsert k v l) q = if k = q then some v else lookup l q := by
  induction l with
  | nil =>
    by_cases h : k = q <;> simp [dictInsert, lookup, h]
  | cons p r ih =>
    obtain ⟨a, b⟩ := p
    by_cases hak : a = k
    · subst hak
      by_cases haq : a = q <;> simp [dictInsert, lookup, haq]
    · by_cases haq : a = q
      · subst haq
        simp [dictInsert, lookup, hak, Ne.symm hak]
      · simp [dictInsert, lookup, hak, haq, ih]

theorem lookup_eq_none_of_not_mem_keys {l : Inv} {k : Str}
    (h : k ∉ l.map Prod.fst) : lookup l k = none := by
  induction l with
  | nil => rfl
  | cons p r ih =>
    obtain ⟨a, b⟩ := p
    simp only [List.map_cons, List.mem_cons] at h
    push_neg at h
    simp [lookup, Ne.symm h.1, ih h.2]

theorem lookup_filter (q : Str × ObjEntry → Bool) (l : Inv)
    (hn : keysNodup l) (k : Str) :
    lookup (l.filter q) k =
      match lookup l k with
      | some e => if q (k, e) then some e else none
      | none => none := by
  induction l with
  | nil => rfl
  | cons p r ih =>
    obtain ⟨a, b⟩ := p
    rw [keysNodup, List.map_cons, List.nodup_cons] at hn
    by_cases hak : a = k
    · subst hak
      have hnone : lookup (r.filter q) a = none := by
        apply lookup_eq_none_of_not_mem_keys
        intro hm
        exact hn.1 (((List.filter_sublist r).map Prod.fst).subset hm)
      by_cases hq : q (a, b)
      · simp [List.filter, hq, lookup]
      · simp only [List.filter_cons]
        rw [if_neg (by simpa using hq)]
        simp [lookup, hnone, hq]
    · by_cases hq : q (a, b)
      · simp only [List.filter_cons]
        rw [if_pos (by simpa using hq)]
        simp [lookup, hak, ih hn.2]
      · simp only [List.filter_cons]
        rw [if_neg (by simpa using hq)]
        simp [lookup, hak, ih hn.2]

theorem dictInsert_of_lookup_none {l : Inv} {k : Str} {v : ObjEntry}
    (h : lookup l k = none) : dictInsert k v l = l ++ [(k, v)] := by
  induction l with
  | nil => rfl
  | cons p r ih =>
    obtain ⟨a, b⟩ := p
    by_cases hak : a = k
    · subst hak
      simp [lookup] at h
    · simp only [lookup, if_neg hak] at h
      simp [dictInsert, hak, ih h]

theorem lookup_append_left_none {l1 l2 : Inv} {k : Str}
    (h : lookup l1 k = none) : lookup (l1 ++ l2) k = lookup l2 k := by
  induction l1 with
  | nil => rfl
  | cons p r ih =>
    obtain ⟨a, b⟩ := p
    by_cases hak : a = k
    · subst hak; simp [lookup] at h
    · simp only [lookup, if_neg hak] at h
      simp [lookup, hak, ih h]

theorem filter_key_nil_of_lookup_none {l : Inv} {k : Str}
    (h : lookup l k = none) :
    l.filter (fun p => decide (p.1 = k)) = [] := by
  induction l with
  | nil => rfl
  | cons p r ih =>
    obtain ⟨a, b⟩ := p
    by_cases hak : a = k
    · subst hak; simp [lookup] at h
    · simp only [lookup, if_neg hak] at h
      simp [List.filter, hak, ih h]

theorem filter_key_dictInsert_of_some {l : Inv} {k : Str} {e : ObjEntry}
    (h : lookup l k = some e) (v : ObjEntry) :
    ((dictInsert k v l).filter (fun p => decide (p.1 = k))).length =
      ((l.filter (fun p => decide (p.1 = k))).length) := by
  induction l with
  | nil => simp [lookup] at h
  | cons p r ih =>
    obtain ⟨a, b⟩ := p
    by_cases hak : a = k
    · subst hak
      simp [dictInsert, List.filter]
    · simp only [lookup, if_neg hak] at h
      simp [dictInsert, hak, List.filter, ih h]

theorem reinsertDoc_fst (ps : Inv) : ∀ (inv : Inv) (w : List DupWarning),
    (reinsertDoc (inv, w) ps).1 =
      ps.foldl (fun acc p => dictInsert p.1 p.2 acc) inv := by
  induction ps with
  | nil => intro inv w; rfl
  | cons p r ih =>
    intro inv w
    obtain ⟨a, b⟩ := p
    simp only [reinsertDoc, List.foldl_cons] at *
    exact ih (dictInsert a b inv) (indexInsert b.docname b.objtype a inv w).2

theorem lookup_foldl_dictInsert (ps : Inv) : ∀ (base : Inv) (k : Str),
    (ps.map Prod.fst).Nodup →
    lookup (ps.foldl (fun acc p => dictInsert p.1 p.2 acc) base) k =
      match lookup ps k with
      | some e => some e
      | none => lookup base k := by
  induction ps with
  | nil => intro base k _; rfl
  | cons p r ih =>
    intro base k hn
    obtain ⟨a, b⟩ := p
    rw [List.map_cons, List.nodup_cons] at hn
    simp only [List.foldl_cons]
    rw [ih (dictInsert a b base) k hn.2, lookup_dictInsert]
    by_cases hak : a = k
    · subst hak
      rw [lookup_eq_none_of_not_mem_keys hn.1]
      simp [lookup]
    · simp [lookup, hak]

/-- C7: after `clear_doc`, re-running the index insertions of exactly
the entries the document owned (in index order) restores an index with
the same content: every name maps to the same entry as before the
clear. -/
theorem rebuild_restores_index (inv : Inv) (d : Str) (w : List DupWarning)
    (hn : keysNodup inv) (k : Str) :
    lookup ((reinsertDoc (clearDoc d inv, w) (ownedPairs inv d)).1) k =
      lookup inv k := by
  have hsub : ((ownedPairs inv d).map Prod.fst).Nodup :=
    ((List.filter_sublist inv).map Prod.fst).nodup hn
  rw [reinsertDoc_fst, lookup_foldl_dictInsert _ _ _ hsub]
  have howned := lookup_filter (fun p => decide (p.2.docname = d)) inv hn k
  have hclear := lookup_filter (fun p => !decide (p.2.docname = d)) inv hn k
  rw [ownedPairs, howned, clearDoc, hclear]
  cases hlk : lookup inv k with
  | none => rfl
  | some e =>
    by_cases hd : e.docname = d <;> simp [hd]

theorem lookup_clearDoc (inv : Inv) (d : Str) (hn : keysNodup inv) (k : Str) :
    lookup (clearDoc d inv) k =
      match lookup inv k with
      | some e => if e.docname = d then none else some e
      | none => none := by
  rw [clearDoc, lookup_filter (fun p => !decide (p.2.docname = d)) inv hn k]
  cases hlk : lookup inv k with
  | none => rfl
  | some e =>
    by_cases hd : e.docname = d <;> simp [hd]

/-- C8: `clear_doc` removes exactly the entries owned by the cleared
document: a name whose entry is owned by it no longer resolves to
anything, a name owned by any other document keeps its entry
unchanged, and a name absent before stays absent. -/
theorem clear_doc_removes_exactly (inv : Inv) (d : Str) (hn : keysNodup inv)
    (k : Str) :
    (∀ e, lookup inv k = some e → e.docname = d →
      lookup (clearDoc d inv) k = none)
    ∧ (∀ e, lookup inv k = some e → e.docname ≠ d →
      lookup (clearDoc d inv) k = some e)
    ∧ (lookup inv k = none → lookup (clearDoc d inv) k = none) := by
  have h := lookup_clearDoc inv d hn k
  refine ⟨?_, ?_, ?_⟩
  · intro e hlk hd
    rw [h, hlk]
    simp [hd]
  · intro e hlk hd
    rw [h, hlk]
    simp [hd]
  · intro hlk
    rw [h, hlk]

/-- C1: inserting two symbols with the same fully-qualified name into
the symbol index (the name being new to the index beforehand): the
second insertion is an ordinary total update, afterwards the index
holds exactly one entry for the name — the second one — and exactly
one duplicate warning was recorded, naming the first symbol's
document. -/
theorem duplicate_insert_last_wins (inv : Inv) (w : List DupWarning)
    (name d1 t1 d2 t2 : Str) (h : lookup inv name = none) :
    lookup (indexInsert d2 t2 name
        (indexInsert d1 t1 name inv w).1 (indexInsert d1 t1 name inv w).2).1
        name = some ⟨d2, t2⟩
    ∧ (((indexInsert d2 t2 name
        (indexInsert d1 t1 name inv w).1 (indexInsert d1 t1 name inv w).2).1.filter
          (fun p => decide (p.1 = name))).length) = 1
    ∧ (indexInsert d1 t1 name inv w).2 = w
    ∧ (indexInsert d2 t2 name
        (indexInsert d1 t1 name inv w).1 (indexInsert d1 t1 name inv w).2).2 =
        w ++ [⟨name, d1⟩] := by
  have h1fst : (indexInsert d1 t1 name inv w).1 = inv ++ [(name, ⟨d1, t1⟩)] := by
    rw [show (indexInsert d1 t1 name inv w).1 = dictInsert name ⟨d1, t1⟩ inv from rfl,
      dictInsert_of_lookup_none h]
  have h1snd : (indexInsert d1 t1 name inv w).2 = w := by
    simp [indexInsert, h]
  have hlk1 : lookup (inv ++ [(name, ⟨d1, t1⟩)]) name = some ⟨d1, t1⟩ := by
    rw [lookup_append_left_none h]; simp [lookup]
  refine ⟨?_, ?_, h1snd, ?_⟩
  · rw [show (indexInsert d2 t2 name (indexInsert d1 t1 name inv w).1
        (indexInsert d1 t1 name inv w).2).1 =
        dictInsert name ⟨d2, t2⟩ (indexInsert d1 t1 name inv w).1 from rfl,
      lookup_dictInsert]
    simp
  · rw [show (indexInsert d2 t2 name (indexInsert d1 t1 name inv w).1
        (indexInsert d1 t1 name inv w).2).1 =
        dictInsert name ⟨d2, t2⟩ (indexInsert d1 t1 name inv w).1 from rfl, h1fst]
    rw [filter_key_dictInsert_of_some hlk1]
    rw [List.filter_append, filter_key_nil_of_lookup_none h]
    simp
  · rw [show (indexInsert d2 t2 name (indexInsert d1 t1 name inv w).1
        (indexInsert d1 t1 name inv w).2).2 =
        (match lookup (indexInsert d1 t1 name inv w).1 name with
          | some e => (indexInsert d1 t1 name inv w).2 ++ [⟨name, e.docname⟩]
          | none => (indexInsert d1 t1 name inv w).2) from rfl]
    rw [h1fst, h1snd, hlk1]

/-- C3: `resolve_xref` produces a link exactly when the target is an
exact key of the index (no fallback of any kind), and once `clear_doc`
has removed the owning document's entries the same target resolves to
nothing; the miss is the value `none`, not an error. -/
theorem resolve_exact_lookup (inv : Inv) (t : Str) :
    ((∃ r, resolveXref inv t = some r) ↔ lookup inv t ≠ none)
    ∧ (∀ d e, keysNodup inv → lookup inv t = some e → e.docname = d →
        resolveXref (clearDoc d inv) t = none) := by
  constructor
  · constructor
    · rintro ⟨r, hr⟩
      cases hlk : lookup inv t with
      | none => rw [resolveXref, hlk] at hr; cases hr
      | some e => simp [hlk]
    · intro hne
      cases hlk : lookup inv t with
      | none => exact absurd hlk hne
      | some e => exact ⟨⟨e.docname, t⟩, by rw [resolveXref, hlk]⟩
  · intro d e hn hlk hd
    rw [resolveXref, lookup_clearDoc inv d hn t, hlk]
    simp [hd]

/-- C9: changing the explicit-title flag or the title text handed to
`process_link` never changes the lookup outcome of `resolve_xref`,
because `process_link` passes the target through unchanged and
resolution reads only the target. -/
theorem title_never_affects_lookup (inv : Inv) (f1 f2 : Bool)
    (t1 t2 target : Str) :
    resolveXref inv (processLink f1 t1 target).2 =
      resolveXref inv (processLink f2 t2 target).2 := rfl

/-- C10: when a name is already registered as an id of the current
document, `add_target_and_index` leaves the symbol index and the
warning list untouched; run twice on the same name in one document,
the second run changes neither, so the index keeps the first
directive's entry and no duplicate warning is emitted. -/
theorem same_document_first_wins (env1 env2 : DirectiveEnv) (name : Str)
    (st : BuildState) (h : name ∉ st.documentIds) :
    (addTargetAndIndex env2 name (addTargetAndIndex env1 name st)).inv =
      (addTargetAndIndex env1 name st).inv
    ∧ (addTargetAndIndex env2 name (addTargetAndIndex env1 name st)).warnings =
      (addTargetAndIndex env1 name st).warnings
    ∧ lookup (addTargetAndIndex env1 name st).inv name =
      some ⟨env1.docname, env1.objtype⟩ := by
  have h1 : addTargetAndIndex env1 name st =
      { documentIds := st.documentIds ++ [name]
        inv := (indexInsert env1.docname env1.objtype name st.inv st.warnings).1
        warnings := (indexInsert env1.docname env1.objtype name st.inv st.warnings).2
        indexEntries := st.indexEntries ++ [(indexText env1.objtype name, name)] } := by
    rw [addTargetAndIndex, if_neg h]
  have hmem : name ∈ (addTargetAndIndex env1 name st).documentIds := by
    rw [h1]; simp
  have h2 : addTargetAndIndex env2 name (addTargetAndIndex env1 name st) =
      { addTargetAndIndex env1 name st with
        indexEntries := (addTargetAndIndex env1 name st).indexEntries ++
          [(indexText env2.objtype name, name)] } := by
    rw [addTargetAndIndex, if_pos hmem]
  refine ⟨by rw [h2], by rw [h2], ?_⟩
  rw [h1]
  rw [show (indexInsert env1.docname env1.objtype name st.inv st.warnings).1 =
    dictInsert name ⟨env1.docname, env1.objtype⟩ st.inv from rfl, lookup_dictInsert]
  simp

/-- C2: for every signature the grammar accepts, the returned
fully-qualified name is `current_package ++ "." ++ name` whenever the
context is inside a package (whatever prefix the raw string embeds),
and `embedded-prefix ++ name` (empty prefix when absent) otherwise. -/
theorem qualification_fullname (td : TempData) (sig : Str) (g : SigGroups)
    (h : matchSig sig = some g) :
    (∀ p, td.inPackage = true → td.currentPackage = some p →
      (handleSignature td sig).map HSResult.fullname =
        .ok ((p ++ ['.']) ++ g.name))
    ∧ (td.inPackage = false →
      (handleSignature td sig).map HSResult.fullname =
        .ok (g.pfx.getD [] ++ g.name)) := by
  constructor
  · intro p hip hcp
    unfold handleSignature
    rw [h]
    simp [hip, hcp, mkRes, Except.map]
  · intro hip
    unfold handleSignature
    rw [h]
    simp only [hip, Bool.false_eq_true, if_false]
    by_cases he : (g.pfx.getD []).isEmpty
    · rw [List.isEmpty_iff] at he
      simp [he, mkRes, Except.map]
    · simp [he, mkRes, Except.map]

/-- C6: a raw declaration string the signature grammar rejects makes
`handle_signature` raise `ValueError` — an error for this declaration
only, with no signature returned and no warning recorded. -/
theorem malformed_signature_error (td : TempData) (sig : Str)
    (h : matchSig sig = none) :
    handleSignature td sig = .error .valueError := by
  unfold handleSignature
  rw [h]

/-- C4 counterexample: the code splits the argument list on *every*
comma (`arglist.split(',')`), not only on top-level ones: for
`f(a default nvl(1,2))` the single top-level token
`a default nvl(1,2)` comes out as the two tokens `a default nvl(1`
and `2)`. -/
theorem arglist_split_not_top_level :
    (handleSignature ⟨false, none⟩ ("f(a default nvl(1,2))".toList)).map
        HSResult.sigParams =
      .ok ["a default nvl(1".toList, "2)".toList]
    ∧ splitTopLevelSpec ("a default nvl(1,2)".toList) =
      ["a default nvl(1,2)".toList]
    ∧ ["a default nvl(1".toList, "2)".toList] ≠
      [("a default nvl(1,2)".toList)] := by
  refine ⟨rfl, rfl, by decide⟩

/-- C5: whenever the plain-text type annotation splits (on `' '`) into
a non-empty list of qualifier tokens followed by a final token, the
renderer emits the qualifiers joined as plain non-linked text, a
plain-text space, and a single cross-reference to the final token; a
one-token annotation is rendered as that cross-reference alone. -/
theorem annotation_last_token_xref (role tn : Str) (pre : List Str)
    (last : Str) (h : tn.splitOn ' ' = pre ++ [last]) :
    renderPlainType role tn =
      if pre.isEmpty then [.xref role tn]
      else [.text (List.intercalate (" ".toList) pre),
            .text (" ".toList), .xref role last] := by
  unfold renderPlainType
  rw [h]
  by_cases hp : pre.isEmpty
  · rw [List.isEmpty_iff] at hp
    subst hp
    simp
  · have hne : pre ≠ [] := by
      intro hq; rw [hq] at hp; exact hp rfl
    have h0 : pre.length ≠ 0 := fun hz => hne (List.length_eq_zero.mp hz)
    have hlen : (pre ++ [last]).length ≠ 1 := by
      simp only [List.length_append, List.length_singleton]
      omega
    rw [if_neg hlen, if_neg (by simpa [List.isEmpty_iff] using hne)]
    rw [List.dropLast_concat, List.getLastD_concat]

/-! ## Lemmas about strip -/

theorem head?_dropWhile_false {p : Char → Bool} {l : Str} {c : Char}
    (h : (l.dropWhile p).head? = some c) : p c = false := by
  have := List.head?_dropWhile_not p l
  rw [h] at this
  exact this

theorem mem_dropWhile_of_not {p : Char → Bool} {l : Str} {c : Char}
    (hm : c ∈ l) (hc : p c = false) : c ∈ l.dropWhile p := by
  induction l with
  | nil => cases hm
  | cons a r ih =>
    by_cases hp : p a
    · rw [List.dropWhile_cons_of_pos hp]
      rcases List.mem_cons.mp hm with h | h
      · subst h; rw [hp] at hc; cases hc
      · exact ih h
    · rw [List.dropWhile_cons_of_neg hp]
      exact hm

theorem mem_strip_of_not_space {t : Str} {c : Char} (hm : c ∈ t)
    (hc : isSpaceChar c = false) : c ∈ strip t := by
  unfold strip
  rw [List.mem_reverse]
  exact mem_dropWhile_of_not (List.mem_reverse.mpr
    (mem_dropWhile_of_not hm hc)) hc

theorem strip_head_not_space {t : Str} {c : Char}
    (h : (strip t).head? = some c) : isSpaceChar c = false := by
  unfold strip at h
  rw [List.head?_reverse] at h
  obtain ⟨s, hs⟩ :=
    List.dropWhile_suffix (l := (t.dropWhile isSpaceChar).reverse)
      (p := isSpaceChar)
  have hvne : (((t.dropWhile isSpaceChar).reverse).dropWhile isSpaceChar) ≠ [] := by
    intro hz; rw [hz] at h; cases h
  rw [← List.getLast?_append_of_ne_nil s hvne, hs, List.getLast?_reverse] at h
  exact head?_dropWhile_false h

theorem strip_getLast_not_space {t : Str} {c : Char}
    (h : (strip t).getLast? = some c) : isSpaceChar c = false := by
  unfold strip at h
  rw [List.getLast?_reverse] at h
  exact head?_dropWhile_false h

theorem strip_idem (t : Str) : strip (strip t) = strip t := by
  have h1 : (strip t).dropWhile isSpaceChar = strip t := by
    cases hs : strip t with
    | nil => rfl
    | cons c cs =>
      have hc : isSpaceChar c = false :=
        strip_head_not_space (t := t) (by rw [hs]; rfl)
      rw [List.dropWhile_cons_of_neg (by rw [hc]; exact Bool.false_ne_true)]
  have h2 : (strip t).reverse.dropWhile isSpaceChar = (strip t).reverse := by
    cases hs : (strip t).reverse with
    | nil => rfl
    | cons c cs =>
      have hc : isSpaceChar c = false := by
        apply strip_getLast_not_space (t := t)
        rw [← List.head?_reverse, hs]
        rfl
      rw [List.dropWhile_cons_of_neg (by rw [hc]; exact Bool.false_ne_true)]
  calc strip (strip t)
      = ((strip t).reverse.dropWhile isSpaceChar).reverse := by
        rw [strip, h1]
    _ = strip t := by rw [h2, List.reverse_reverse]

theorem strip_not_degenerate {t : Str} (h : t.all isSpaceChar = false) :
    strip t ≠ [] ∧ (strip t).all isSpaceChar = false := by
  obtain ⟨c, hm, hc⟩ := List.all_eq_false.mp h
  rw [Bool.not_eq_true] at hc
  have hmem : c ∈ strip t := mem_strip_of_not_space hm hc
  refine ⟨List.ne_nil_of_mem hmem, ?_⟩
  rw [List.all_eq_false]
  exact ⟨c, hmem, by rw [hc]; exact Bool.false_ne_true⟩

/-- C4 amended: the argument list is split on *every* comma (not only
top-level ones) into tokens that are then stripped, with empty and
whitespace-only tokens discarded and source order preserved; every
emitted token is non-empty, not whitespace-only, and carries no
leading or trailing whitespace. -/
theorem arglist_tokens (td : TempData) (sig : Str) (g : SigGroups)
    (a : Str) (r : HSResult) (h : matchSig sig = some g)
    (hr : handleSignature td sig = .ok r) (ha : g.arglist = some a)
    (hne : a.isEmpty = false) :
    r.sigParams = ((a.splitOn ',').filter (fun t => !tokenDiscard t)).map strip
    ∧ ∀ t ∈ r.sigParams,
        t ≠ [] ∧ t.all isSpaceChar = false ∧ strip t = t := by
  have hsp : r.sigParams = splitParams a := by
    unfold handleSignature at hr
    rw [h] at hr
    by_cases hip : td.inPackage = true
    · cases hcp : td.currentPackage with
      | none => simp [hip, hcp] at hr
      | some p =>
        simp only [hip, hcp, if_true] at hr
        injection hr with hr2
        rw [← hr2]
        simp [mkRes, ha, hne]
    · simp only [Bool.not_eq_true] at hip
      simp only [hip, Bool.false_eq_true, if_false] at hr
      injection hr with hr2
      rw [← hr2]
      simp [mkRes, ha, hne]
  refine ⟨by rw [hsp]; rfl, ?_⟩
  intro t ht
  rw [hsp, splitParams] at ht
  obtain ⟨t0, ht0, hst⟩ := List.mem_map.mp ht
  obtain ⟨_, hkeep⟩ := List.mem_filter.mp ht0
  have hdisc : tokenDiscard t0 = false := by simpa using hkeep
  have hparts : t0.isEmpty = false ∧ t0.all isSpaceChar = false := by
    rw [tokenDiscard] at hdisc
    rcases Bool.or_eq_false_iff.mp hdisc with ⟨hor, hand⟩
    rcases Bool.or_eq_false_iff.mp hor with ⟨he, _⟩
    refine ⟨he, ?_⟩
    rcases Bool.and_eq_false_iff.mp hand with hh | hh
    · have hh2 : t0.isEmpty = true := by simpa using hh
      rw [he] at hh2
      cases hh2
    · exact hh
  obtain ⟨hnn, hna⟩ := strip_not_degenerate hparts.2
  exact ⟨by rw [← hst]; exact hnn, by rw [← hst]; exact hna,
    by rw [← hst]; exact strip_idem t0⟩

/-! ## Concrete witnesses -/

/-- A small concrete index: two symbols owned by document `d1`, one by
`d2`. -/
def invSample : Inv :=
  [("pkg1".toList, ⟨"d1".toList, "package".toList⟩),
   ("pkg1.init".toList, ⟨"d1".toList, "procedure".toList⟩),
   ("tbl1".toList, ⟨"d2".toList, "table".toList⟩)]

theorem duplicate_insert_last_wins_witness :
    lookup ([] : Inv) ("pkg1.init".toList) = none
    ∧ (indexInsert ("d2".toList) ("function".toList) ("pkg1.init".toList)
        (indexInsert ("d1".toList) ("procedure".toList) ("pkg1.init".toList)
          ([] : Inv) ([] : List DupWarning)).1
        (indexInsert ("d1".toList) ("procedure".toList) ("pkg1.init".toList)
          ([] : Inv) ([] : List DupWarning)).2).2 =
      ([] : List DupWarning) ++ [⟨"pkg1.init".toList, "d1".toList⟩] :=
  ⟨by decide,
   (duplicate_insert_last_wins [] [] ("pkg1.init".toList) ("d1".toList)
      ("procedure".toList) ("d2".toList) ("function".toList) (by decide)).2.2.2⟩

theorem qualification_fullname_witness :
    (handleSignature ⟨true, some ("pkg1".toList)⟩ ("init".toList)).map
        HSResult.fullname = .ok ("pkg1.init".toList)
    ∧ (handleSignature ⟨false, none⟩ ("a.b.init".toList)).map
        HSResult.fullname = .ok ("a.b.init".toList) := by
  constructor
  · have h := (qualification_fullname ⟨true, some ("pkg1".toList)⟩
      ("init".toList) ⟨none, "init".toList, none, none⟩ (by decide)).1
      ("pkg1".toList) rfl rfl
    exact h.trans rfl
  · have h := (qualification_fullname ⟨false, none⟩ ("a.b.init".toList)
      ⟨some ("a.b.".toList), "init".toList, none, none⟩ (by decide)).2 rfl
    exact h.trans rfl

theorem resolve_exact_lookup_witness :
    lookup invSample ("pkg1.init".toList) ≠ none
    ∧ resolveXref (clearDoc ("d1".toList) invSample) ("pkg1.init".toList) =
      none :=
  ⟨(resolve_exact_lookup invSample ("pkg1.init".toList)).1.mp
      ⟨⟨"d1".toList, "pkg1.init".toList⟩, by decide⟩,
   (resolve_exact_lookup invSample ("pkg1.init".toList)).2 ("d1".toList)
      ⟨"d1".toList, "procedure".toList⟩ (by decide) (by decide) rfl⟩

theorem arglist_tokens_witness :
    (⟨"proc1".toList,
      ["a in number".toList, "b out varchar2".toList], none⟩ : HSResult).sigParams =
      (((("a in number, b out varchar2".toList).splitOn ',').filter
        (fun t => !tokenDiscard t)).map strip)
    ∧ strip ("a in number".toList) = ("a in number".toList) := by
  have h := arglist_tokens ⟨false, none⟩
    ("proc1(a in number, b out varchar2)".toList)
    ⟨none, "proc1".toList,
      some ("a in number, b out varchar2".toList), none⟩
    ("a in number, b out varchar2".toList)
    ⟨"proc1".toList, ["a in number".toList, "b out varchar2".toList], none⟩
    (by decide) rfl rfl (by decide)
  exact ⟨h.1, (h.2 ("a in number".toList) (by decide)).2.2⟩

theorem annotation_last_token_xref_witness :
    renderPlainType ("obj".toList) ("in out custom_type".toList) =
      [.text ("in out".toList), .text (" ".toList),
       .xref ("obj".toList) ("custom_type".toList)]
    ∧ renderPlainType ("obj".toList) ("number".toList) =
      [.xref ("obj".toList) ("number".toList)] := by
  constructor
  · have h := annotation_last_token_xref ("obj".toList)
      ("in out custom_type".toList) ["in".toList, "out".toList]
      ("custom_type".toList) (by decide)
    rw [h]
    decide
  · have h := annotation_last_token_xref ("obj".toList) ("number".toList)
      [] ("number".toList) (by decide)
    rw [h]
    decide

theorem malformed_signature_error_witness :
    handleSignature ⟨false, none⟩ ("(".toList) = .error .valueError :=
  malformed_signature_error ⟨false, none⟩ ("(".toList) (by decide)

theorem rebuild_restores_index_witness :
    keysNodup invSample
    ∧ lookup ((reinsertDoc (clearDoc ("d1".toList) invSample, [])
        (ownedPairs invSample ("d1".toList))).1) ("pkg1.init".toList) =
      lookup invSample ("pkg1.init".toList) :=
  ⟨by decide,
   rebuild_restores_index invSample ("d1".toList) [] (by decide)
     ("pkg1.init".toList)⟩

theorem clear_doc_removes_exactly_witness :
    keysNodup invSample
    ∧ lookup (clearDoc ("d1".toList) invSample) ("tbl1".toList) =
      some ⟨"d2".toList, "table".toList⟩ :=
  ⟨by decide,
   (clear_doc_removes_exactly invSample ("d1".toList) (by decide)
      ("tbl1".toList)).2.1 ⟨"d2".toList, "table".toList⟩ (by decide)
      (by decide)⟩

theorem same_document_first_wins_witness :
    ("pkg1.init".toList ∉ (⟨[], [], [], []⟩ : BuildState).documentIds)
    ∧ (addTargetAndIndex ⟨"d1".toList, "function".toList⟩ ("pkg1.init".toList)
        (addTargetAndIndex ⟨"d1".toList, "procedure".toList⟩
          ("pkg1.init".toList) ⟨[], [], [], []⟩)).warnings =
      (addTargetAndIndex ⟨"d1".toList, "procedure".toList⟩ ("pkg1.init".toList)
        (⟨[], [], [], []⟩ : BuildState)).warnings
    ∧ lookup (addTargetAndIndex ⟨"d1".toList, "procedure".toList⟩
        ("pkg1.init".toList) (⟨[], [], [], []⟩ : BuildState)).inv
        ("pkg1.init".toList) =
      some ⟨"d1".toList, "procedure".toList⟩ :=
  ⟨by decide,
   (same_document_first_wins ⟨"d1".toList, "procedure".toList⟩
      ⟨"d1".toList, "function".toList⟩ ("pkg1.init".toList) ⟨[], [], [], []⟩
      (by decide)).2.1,
   (same_document_first_wins ⟨"d1".toList, "procedure".toList⟩
      ⟨"d1".toList, "function".toList⟩ ("pkg1.init".toList) ⟨[], [], [], []⟩
      (by decide)).2.2⟩

end PlsqlDomain
